import Mathlib

/-!
Shallow embedding of the `convolve2d` crate (2D convolution over abstract
row-major grids), together with theorems settling a list of claims about it.

The embedding mirrors, definition by definition:
  * `src/matrix.rs`   — the `Matrix` trait's default `get_value`, the
    `FlippedMatrix` view, `StaticMatrix::new`, `DynamicMatrix::new`;
  * `src/convolution.rs` — `alignment_to_choke_padding`, `update_buffer`,
    `update_buffer_saturating`, `write_convolution`,
    `write_convolution_saturating`, `convolve2d`, `convolve2d_saturating`;
  * `src/subpixels.rs` and `src/lib.rs` — the `SubPixels` arithmetic and the
    crate's table of `SaturatingAdd` / `SaturatingMul` implementations.

Machine integers are modelled as `Nat`/`Int`; where saturation matters the
clamping is written out explicitly (`u8SatAdd`, `u8SatMul`).  A Rust `panic!`
(`Option::unwrap` on `None`) is modelled by the convolution returning `none`.
Rust generics over the `Mul`/`Add` (resp. `SaturatingMul`/`SaturatingAdd`)
trait bounds are modelled by passing the corresponding binary operations as
explicit function arguments.
-/

namespace Convolve2d

/-- The data carried by a concrete `Matrix` implementation: a width, a height,
and a row-major backing sequence.  Both `StaticMatrix` (array-backed) and
`DynamicMatrix` (`Vec`-backed) carry exactly these three fields. -/
structure Mat (α : Type) where
  width : Nat
  height : Nat
  data : List α
  deriving DecidableEq, Repr

/-- Models Rust's `slice::get`: `some` of the element at the index when it is
in bounds, `none` otherwise. -/
def sliceGet {α : Type} : List α → Nat → Option α
  | [], _ => none
  | x :: _, 0 => some x
  | _ :: xs, n + 1 => sliceGet xs n

/-- The `Matrix` trait's default `get_value`:
`self.get_data().get(row * self.get_width() + col)`.  Both concrete matrix
types use this default implementation. -/
def Mat.get_value {α : Type} (m : Mat α) (row col : Nat) : Option α :=
  sliceGet m.data (row * m.width + col)

/-- Models `FlippedMatrix::get_value`: remaps the query to
`(height - row - 1, width - col - 1)` and delegates to the wrapped matrix's
`get_value`.  (`get_width`, `get_height` and `get_data` delegate unchanged.) -/
def FlippedMatrix.get_value {α : Type} (m : Mat α) (row col : Nat) : Option α :=
  Mat.get_value m (m.height - row - 1) (m.width - col - 1)

/-- Models `StaticMatrix::new`: succeeds iff `width * height == data.len()`, storing
the three supplied fields unchanged. -/
def StaticMatrix.new {α : Type} (width height : Nat) (data : List α) : Option (Mat α) :=
  if width * height = data.length then some ⟨width, height, data⟩ else none

/-- Models `DynamicMatrix::new`: succeeds iff `width * height == data.len()`, storing
the three supplied fields unchanged. -/
def DynamicMatrix.new {α : Type} (width height : Nat) (data : List α) : Option (Mat α) :=
  if width * height = data.length then some ⟨width, height, data⟩ else none

/-- Models `alignment_to_choke_padding`: a negative alignment becomes a choke (drop
from the scaled input stream), a non-negative one becomes padding (skip into
the output buffer). -/
def alignment_to_choke_padding (alignment : Int) : Nat × Nat :=
  if alignment < 0 then (alignment.natAbs, 0) else (0, alignment.toNat)

/-- The `zip`/`for_each` kernel of `update_buffer`:
`stream.zip(buf).for_each(|(n, a)| *a = a.clone() + n)`.  Buffer elements with
no counterpart in the stream are left unchanged; stream elements with no
counterpart in the buffer are discarded. -/
def accumInto {O : Type} (add : O → O → O) : List O → List O → List O
  | [], buf => buf
  | _ :: _, [] => []
  | n :: ns, a :: rest => add a n :: accumInto add ns rest

/-- Models `update_buffer`: scale the whole image by the kernel value, drop `choke`
elements from the scaled stream, skip `padding` elements of the buffer, and
accumulate element-wise with `+` over the overlap. -/
def update_buffer {T K O : Type} (mul : T → K → O) (add : O → O → O)
    (image : List T) (kernel_value : K) (alignment : Int) (buf : List O) : List O :=
  let cp := alignment_to_choke_padding alignment
  buf.take cp.2 ++
    accumInto add ((image.map (fun x => mul x kernel_value)).drop cp.1) (buf.drop cp.2)

/-- Models `update_buffer_saturating`: identical to `update_buffer` except that the
scaling uses `saturating_mul` and the accumulation uses `saturating_add`. -/
def update_buffer_saturating {T K O : Type} (smul : T → K → O) (sadd : O → O → O)
    (image : List T) (kernel_value : K) (alignment : Int) (buf : List O) : List O :=
  let cp := alignment_to_choke_padding alignment
  buf.take cp.2 ++
    accumInto sadd ((image.map (fun x => smul x kernel_value)).drop cp.1) (buf.drop cp.2)

/-- The tap-iteration order of `write_convolution`'s two nested `for` loops:
rows `0..height` outer, columns `0..width` inner. -/
def conv_taps (height width : Nat) : List (Nat × Nat) :=
  (List.range height).flatMap fun row => (List.range width).map fun col => (row, col)

/-- The loop body chain of `write_convolution`: for each tap, look the tap's
value up in the flipped kernel (`.unwrap()` is modelled by propagating
`none`), compute the tap's alignment, and fold `update_buffer` over the
buffer. -/
def conv_loop {T K O : Type} (mul : T → K → O) (add : O → O → O)
    (imageData : List T) (imageWidth : Nat) (kernel : Mat K) (ksy ksx : Int) :
    List (Nat × Nat) → List O → Option (List O)
  | [], buf => some buf
  | rc :: taps, buf =>
    match FlippedMatrix.get_value kernel rc.1 rc.2 with
    | none => none
    | some kv =>
      conv_loop mul add imageData imageWidth kernel ksy ksx taps
        (update_buffer mul add imageData kv
          (((rc.1 : Int) - ksy) * (imageWidth : Int) + ((rc.2 : Int) - ksx)) buf)

/-- The loop body chain of `write_convolution_saturating`; identical to
`conv_loop` with the saturating buffer update. -/
def conv_loop_saturating {T K O : Type} (smul : T → K → O) (sadd : O → O → O)
    (imageData : List T) (imageWidth : Nat) (kernel : Mat K) (ksy ksx : Int) :
    List (Nat × Nat) → List O → Option (List O)
  | [], buf => some buf
  | rc :: taps, buf =>
    match FlippedMatrix.get_value kernel rc.1 rc.2 with
    | none => none
    | some kv =>
      conv_loop_saturating smul sadd imageData imageWidth kernel ksy ksx taps
        (update_buffer_saturating smul sadd imageData kv
          (((rc.1 : Int) - ksy) * (imageWidth : Int) + ((rc.2 : Int) - ksx)) buf)

/-- Models `write_convolution`: wrap the kernel in the flipped view, compute the
half-width/half-height strides with `>> 1`, and run the tap loop over the
caller-supplied output buffer.  `none` models the `.unwrap()` panic. -/
def write_convolution {T K O : Type} (mul : T → K → O) (add : O → O → O)
    (image : Mat T) (kernel : Mat K) (out : List O) : Option (List O) :=
  conv_loop mul add image.data image.width kernel
    ((kernel.height >>> 1 : Nat) : Int) ((kernel.width >>> 1 : Nat) : Int)
    (conv_taps kernel.height kernel.width) out

/-- Models `write_convolution_saturating`: as `write_convolution` with
saturating arithmetic. -/
def write_convolution_saturating {T K O : Type} (smul : T → K → O) (sadd : O → O → O)
    (image : Mat T) (kernel : Mat K) (out : List O) : Option (List O) :=
  conv_loop_saturating smul sadd image.data image.width kernel
    ((kernel.height >>> 1 : Nat) : Int) ((kernel.width >>> 1 : Nat) : Int)
    (conv_taps kernel.height kernel.width) out

/-- Models `convolve2d`: allocate a `width*height` buffer of `O::default()` values,
run `write_convolution` into it, and wrap the result as a `DynamicMatrix` of
the image's dimensions. -/
def convolve2d {T K O : Type} (mul : T → K → O) (add : O → O → O) (dflt : O)
    (image : Mat T) (kernel : Mat K) : Option (Mat O) :=
  (write_convolution mul add image kernel
      (List.replicate (image.width * image.height) dflt)).map
    fun d => ⟨image.width, image.height, d⟩

/-- Models `convolve2d_saturating`: as `convolve2d` with saturating
arithmetic. -/
def convolve2d_saturating {T K O : Type} (smul : T → K → O) (sadd : O → O → O) (dflt : O)
    (image : Mat T) (kernel : Mat K) : Option (Mat O) :=
  (write_convolution_saturating smul sadd image kernel
      (List.replicate (image.width * image.height) dflt)).map
    fun d => ⟨image.width, image.height, d⟩

/-- Models `u8::saturating_add`, on `Nat` representatives of `u8` values (faithful
for operands below 256): the sum clamped to `u8::MAX = 255`. -/
def u8SatAdd (a b : Nat) : Nat := min (a + b) 255

/-- Models `u8::saturating_mul`, on `Nat` representatives of `u8` values (faithful
for operands below 256): the product clamped to `u8::MAX = 255`. -/
def u8SatMul (a b : Nat) : Nat := min (a * b) 255

/-- Models `SubPixels<T, N>`: an ordered fixed-length tuple of scalar channels,
modelled as the list of its channel values (the list length plays the role of
the const generic `N`). -/
structure SubPixels (α : Type) where
  vals : List α
  deriving DecidableEq, Repr

/-- The `Add` impl for `SubPixels` in subpixels.rs: channel-wise addition
(`self.0[i] = self.0[i] + x` over the enumerated channels of `rhs`; the const
generic `N` guarantees both operands have the same channel count). -/
def SubPixels.add {α : Type} (addT : α → α → α) (a b : SubPixels α) : SubPixels α :=
  ⟨List.zipWith addT a.vals b.vals⟩

/-- The `Mul<C>` impl for `SubPixels` in subpixels.rs: every channel is
multiplied by the same scalar `rhs`. -/
def SubPixels.mul {α κ β : Type} (mulT : α → κ → β) (a : SubPixels α) (c : κ) : SubPixels β :=
  ⟨a.vals.map fun x => mulT x c⟩

/-- Names for the element types the crate works with: the twelve primitive
integer types, and the `SubPixels` composite type over a channel type and a
channel count. -/
inductive CrateTy : Type
  | u8 | u16 | u32 | u64 | u128 | usz
  | i8 | i16 | i32 | i64 | i128 | isz
  | subPixels (channel : CrateTy) (n : Nat)
  deriving DecidableEq

/-- The receiver types of every `SaturatingAdd` impl in the crate: lib.rs
generates them with `saturating_impl!(u8, u16, u32, u64, u128, usize)` and
`saturating_impl!(i8, i16, i32, i64, i128, isize)`, and no other
`SaturatingAdd` impl exists anywhere in the crate (in particular subpixels.rs
implements only `Add` and `Mul` for `SubPixels`). -/
def saturatingAddImplTypes : List CrateTy :=
  [.u8, .u16, .u32, .u64, .u128, .usz, .i8, .i16, .i32, .i64, .i128, .isz]

/-- The receiver types of every `SaturatingMul` impl in the crate: the same
two `saturating_impl!` macro calls in lib.rs generate these, and no other
`SaturatingMul` impl exists anywhere in the crate. -/
def saturatingMulImplTypes : List CrateTy :=
  [.u8, .u16, .u32, .u64, .u128, .usz, .i8, .i16, .i32, .i64, .i128, .isz]

/-! ## Helper lemmas -/

theorem sliceGet_eq_getElem? {α : Type} : ∀ (l : List α) (n : Nat), sliceGet l n = l[n]?
  | [], n => by simp [sliceGet]
  | x :: _, 0 => by simp [sliceGet]
  | x :: xs, n + 1 => by
    simp only [sliceGet, List.getElem?_cons_succ]
    exact sliceGet_eq_getElem? xs n

theorem sliceGet_eq_none_iff {α : Type} :
    ∀ (l : List α) (n : Nat), sliceGet l n = none ↔ l.length ≤ n
  | [], n => by simp [sliceGet]
  | x :: xs, 0 => by simp [sliceGet]
  | x :: xs, n + 1 => by
    simpa [sliceGet, Nat.succ_le_succ_iff] using sliceGet_eq_none_iff xs n

theorem zipWith_getElem?_some {α β γ : Type} (f : α → β → γ) :
    ∀ (as : List α) (bs : List β) (i : Nat) (x : α) (y : β),
      as[i]? = some x → bs[i]? = some y → (List.zipWith f as bs)[i]? = some (f x y)
  | [], _, _, _, _, h, _ => by simp at h
  | _ :: _, [], _, _, _, _, h => by simp at h
  | a :: as, b :: bs, 0, x, y, hx, hy => by
    simp only [List.getElem?_cons_zero, Option.some.injEq] at hx hy
    simp [hx, hy]
  | a :: as, b :: bs, i + 1, x, y, hx, hy => by
    simp only [List.getElem?_cons_succ] at hx hy
    simpa using zipWith_getElem?_some f as bs i x y hx hy

theorem accumInto_length {O : Type} (add : O → O → O) :
    ∀ (ns buf : List O), (accumInto add ns buf).length = buf.length
  | [], _ => rfl
  | _ :: _, [] => rfl
  | n :: ns, a :: rest => by
    simp only [accumInto, List.length_cons, accumInto_length add ns rest]

theorem update_buffer_length {T K O : Type} (mul : T → K → O) (add : O → O → O)
    (image : List T) (kv : K) (alignment : Int) (buf : List O) :
    (update_buffer mul add image kv alignment buf).length = buf.length := by
  unfold update_buffer
  simp only [List.length_append, List.length_take, accumInto_length, List.length_drop]
  omega

/-- Accumulating a stream of elements that are all absorbed by `add` leaves
the buffer unchanged. -/
theorem accumInto_absorbed {O : Type} (add : O → O → O) (z : O)
    (hadd : ∀ a, add a z = a) :
    ∀ (ns buf : List O), (∀ n ∈ ns, n = z) → accumInto add ns buf = buf
  | [], buf, _ => rfl
  | _ :: _, [], _ => rfl
  | n :: ns, a :: rest, hz => by
    have hn : n = z := hz n (List.mem_cons_self _ _)
    have hns : ∀ x ∈ ns, x = z := fun x hx => hz x (List.mem_cons_of_mem _ hx)
    simp only [accumInto, hn, hadd, accumInto_absorbed add z hadd ns rest hns]

/-- A zero kernel tap leaves the output buffer unchanged (for any
alignment). -/
theorem update_buffer_zero_tap {T K O : Type} (mul : T → K → O) (add : O → O → O)
    (z : K) (zO : O) (hmul : ∀ x, mul x z = zO) (hadd : ∀ a, add a zO = a)
    (image : List T) (alignment : Int) (buf : List O) :
    update_buffer mul add image z alignment buf = buf := by
  simp only [update_buffer]
  rw [accumInto_absorbed add zO hadd _ _ ?_, List.take_append_drop]
  intro n hn
  have := List.mem_map.mp (List.mem_of_mem_drop hn)
  obtain ⟨x, _, hx⟩ := this
  rw [← hx, hmul]

/-- An all-absorbed image (every scaled element is a right identity of `add`)
leaves the output buffer unchanged for every kernel value and alignment. -/
theorem update_buffer_zero_image {T K O : Type} (mul : T → K → O) (add : O → O → O)
    (zT : T) (zO : O) (hmul : ∀ k, mul zT k = zO) (hadd : ∀ a, add a zO = a)
    (n : Nat) (kv : K) (alignment : Int) (buf : List O) :
    update_buffer mul add (List.replicate n zT) kv alignment buf = buf := by
  simp only [update_buffer]
  rw [accumInto_absorbed add zO hadd _ _ ?_, List.take_append_drop]
  intro x hx
  rw [List.map_replicate, List.drop_replicate] at hx
  rw [List.eq_of_mem_replicate hx, hmul]

/-- Accumulating a stream into an equally long buffer of left identities of
`add` produces the stream itself. -/
theorem accumInto_into_zeros {O : Type} (add : O → O → O) (z : O)
    (hadd : ∀ x, add z x = x) :
    ∀ (ns : List O), accumInto add ns (List.replicate ns.length z) = ns := by
  intro ns
  induction ns with
  | nil => rfl
  | cons n ns ih =>
    simp only [List.length_cons, List.replicate_succ, accumInto, hadd, ih]

theorem mem_conv_taps {h w : Nat} {rc : Nat × Nat} :
    rc ∈ conv_taps h w ↔ rc.1 < h ∧ rc.2 < w := by
  obtain ⟨r, c⟩ := rc
  simp only [conv_taps, List.mem_flatMap, List.mem_map, List.mem_range, Prod.mk.injEq]
  constructor
  · rintro ⟨row, hrow, col, hcol, h1, h2⟩
    subst h1; subst h2
    exact ⟨hrow, hcol⟩
  · rintro ⟨h1, h2⟩
    exact ⟨r, h1, c, h2, rfl, rfl⟩

theorem sliceGet_isSome_of_lt {α : Type} {l : List α} {n : Nat} (h : n < l.length) :
    (sliceGet l n).isSome := by
  rw [← Option.ne_none_iff_isSome]
  intro hc
  rw [sliceGet_eq_none_iff] at hc
  omega

/-- For an in-range tap of a kernel whose data covers its declared
`width * height` extent, the flipped lookup succeeds. -/
theorem flipped_lookup_isSome {K : Type} (kernel : Mat K)
    (hk : kernel.width * kernel.height ≤ kernel.data.length)
    {r c : Nat} (hr : r < kernel.height) (hc : c < kernel.width) :
    (FlippedMatrix.get_value kernel r c).isSome := by
  unfold FlippedMatrix.get_value Mat.get_value
  apply sliceGet_isSome_of_lt
  have h1 : (kernel.height - r - 1) * kernel.width ≤ (kernel.height - 1) * kernel.width :=
    Nat.mul_le_mul_right _ (by omega)
  have h2 : (kernel.height - 1) * kernel.width = kernel.height * kernel.width - kernel.width :=
    Nat.sub_one_mul _ _
  have h3 : kernel.width ≤ kernel.height * kernel.width :=
    Nat.le_mul_of_pos_left _ (by omega)
  have h4 : kernel.height * kernel.width = kernel.width * kernel.height := Nat.mul_comm _ _
  omega

/-- The tap loop leaves the buffer unchanged whenever every tap's lookup
succeeds and every single-tap update is the identity. -/
theorem conv_loop_fixed {T K O : Type} (mul : T → K → O) (add : O → O → O)
    (imageData : List T) (imageWidth : Nat) (kernel : Mat K) (ksy ksx : Int)
    (hid : ∀ kv align buf, update_buffer mul add imageData kv align buf = buf) :
    ∀ (taps : List (Nat × Nat)) (buf : List O),
      (∀ rc ∈ taps, (FlippedMatrix.get_value kernel rc.1 rc.2).isSome) →
      conv_loop mul add imageData imageWidth kernel ksy ksx taps buf = some buf
  | [], buf, _ => rfl
  | rc :: taps, buf, hsome => by
    have h1 : (FlippedMatrix.get_value kernel rc.1 rc.2).isSome :=
      hsome rc (List.mem_cons_self _ _)
    obtain ⟨kv, hkv⟩ := Option.isSome_iff_exists.mp h1
    rw [conv_loop, hkv]
    simp only
    rw [hid]
    exact conv_loop_fixed mul add imageData imageWidth kernel ksy ksx hid taps buf
      fun rc' h => hsome rc' (List.mem_cons_of_mem _ h)

/-! ## Theorems for the claims -/

/-- C2: convolving the 3×3 unit-impulse image with the kernel
`[[1,2,3],[4,5,6],[7,8,9]]` via `convolve2d` yields exactly
`[[9,8,7],[6,5,4],[3,2,1]]`, the 180°-flipped kernel centred on the single
nonzero input cell. -/
theorem convolve2d_impulse_flips_kernel :
    convolve2d (fun (a b : Int) => a * b) (fun a b => a + b) 0
      ⟨3, 3, [0, 0, 0, 0, 1, 0, 0, 0, 0]⟩ ⟨3, 3, [1, 2, 3, 4, 5, 6, 7, 8, 9]⟩
      = some ⟨3, 3, [9, 8, 7, 6, 5, 4, 3, 2, 1]⟩ := by decide

/-- C4: saturating convolution of the 3×3 8-bit image `[1..9]` with the 1×1
kernel `[128]` yields `[128, 255, 255, 255, 255, 255, 255, 255, 255]` — the
first element exact, all others clamped to `u8::MAX` — through both the
allocating and the caller-supplied-buffer entry point. -/
theorem saturating_convolution_clamps_u8 :
    convolve2d_saturating u8SatMul u8SatAdd 0
      ⟨3, 3, [1, 2, 3, 4, 5, 6, 7, 8, 9]⟩ ⟨1, 1, [128]⟩
      = some ⟨3, 3, [128, 255, 255, 255, 255, 255, 255, 255, 255]⟩
    ∧ write_convolution_saturating u8SatMul u8SatAdd
      ⟨3, 3, [1, 2, 3, 4, 5, 6, 7, 8, 9]⟩ ⟨1, 1, [128]⟩ (List.replicate 9 0)
      = some [128, 255, 255, 255, 255, 255, 255, 255, 255] := by decide

/-- C3 counterexample: on the 3×3 grid `[1..9]`, the query `get_value(0, 3)`
has an out-of-range column (`3 ≥ width = 3`), yet the code returns
`some 4` — the element at row 1, column 0 — rather than `none`: the linear
index `0 * 3 + 3 = 3` silently wraps into the next row. -/
theorem getValue_col_overflow_wraps :
    Mat.get_value ⟨3, 3, [1, 2, 3, 4, 5, 6, 7, 8, 9]⟩ 0 3 = some 4 ∧ ¬ (3 : Nat) < 3 := by
  decide

/-- C3 (amended): `get_value(row, col)` returns `none` iff the linear index
`row * width + col` is out of range of the backing data; with the grid
invariant `data.len() = width * height` this means a row `≥ height` always
yields `none` and an in-range `(row, col)` always yields `some` of
`data[row * width + col]`, but a column `≥ width` can silently wrap into a
subsequent row whenever the linear index stays below `width * height`. -/
theorem getValue_bounds_spec {α : Type} (m : Mat α)
    (hlen : m.data.length = m.width * m.height) (row col : Nat) :
    (m.get_value row col = none ↔ m.width * m.height ≤ row * m.width + col)
    ∧ (m.height ≤ row → m.get_value row col = none)
    ∧ (row < m.height → col < m.width →
        m.get_value row col = m.data[row * m.width + col]?
        ∧ m.get_value row col ≠ none) := by
  have hnone : m.get_value row col = none ↔ m.width * m.height ≤ row * m.width + col := by
    rw [Mat.get_value, sliceGet_eq_none_iff, hlen]
  refine ⟨hnone, ?_, ?_⟩
  · intro hrow
    rw [hnone]
    calc m.width * m.height ≤ m.height * m.width := by rw [Nat.mul_comm]
      _ ≤ row * m.width := Nat.mul_le_mul_right _ hrow
      _ ≤ row * m.width + col := Nat.le_add_right _ _
  · intro hr hc
    have hlt : row * m.width + col < m.width * m.height := by
      calc row * m.width + col < row * m.width + m.width := Nat.add_lt_add_left hc _
        _ = (row + 1) * m.width := by ring
        _ ≤ m.height * m.width := Nat.mul_le_mul_right _ hr
        _ = m.width * m.height := Nat.mul_comm _ _
    refine ⟨by rw [Mat.get_value, sliceGet_eq_getElem?], fun hcontra => ?_⟩
    rw [hnone] at hcontra
    omega

/-- C3 amended-theorem witness: instantiation on the 3×3 grid `[1..9]` at the
in-range query `(1, 2)`. -/
theorem getValue_bounds_spec_witness :
    (Mat.get_value ⟨3, 3, ([1, 2, 3, 4, 5, 6, 7, 8, 9] : List Nat)⟩ 1 2 = none
        ↔ 3 * 3 ≤ 1 * 3 + 2)
    ∧ ((3 : Nat) ≤ 1 → Mat.get_value ⟨3, 3, ([1, 2, 3, 4, 5, 6, 7, 8, 9] : List Nat)⟩ 1 2 = none)
    ∧ ((1 : Nat) < 3 → (2 : Nat) < 3 →
        Mat.get_value ⟨3, 3, ([1, 2, 3, 4, 5, 6, 7, 8, 9] : List Nat)⟩ 1 2
            = ([1, 2, 3, 4, 5, 6, 7, 8, 9] : List Nat)[1 * 3 + 2]?
        ∧ Mat.get_value ⟨3, 3, ([1, 2, 3, 4, 5, 6, 7, 8, 9] : List Nat)⟩ 1 2 ≠ none) :=
  getValue_bounds_spec ⟨3, 3, [1, 2, 3, 4, 5, 6, 7, 8, 9]⟩ (by decide) 1 2

/-- C6: both constructors return `none` exactly when the supplied data length
differs from `width * height` (zero-sized cases included), and on success the
stored width, height and data are exactly the supplied ones. -/
theorem matrix_new_spec {α : Type} (width height : Nat) (data : List α) :
    (StaticMatrix.new width height data = none ↔ data.length ≠ width * height)
    ∧ (DynamicMatrix.new width height data = none ↔ data.length ≠ width * height)
    ∧ (∀ m, StaticMatrix.new width height data = some m →
        m.width = width ∧ m.height = height ∧ m.data = data)
    ∧ (∀ m, DynamicMatrix.new width height data = some m →
        m.width = width ∧ m.height = height ∧ m.data = data) := by
  unfold StaticMatrix.new DynamicMatrix.new
  by_cases h : width * height = data.length
  · simp only [if_pos h]
    refine ⟨by simp [h.symm], by simp [h.symm], ?_, ?_⟩ <;>
      · rintro m hm
        injection hm with hm
        subst hm
        exact ⟨rfl, rfl, rfl⟩
  · simp only [if_neg h]
    exact ⟨by simpa using fun hc => h hc.symm, by simpa using fun hc => h hc.symm,
      fun m hm => by simp at hm, fun m hm => by simp at hm⟩

/-- C6 witness: a matching 2×2 construction stores its fields unchanged, and a
mismatched 2×3 construction is rejected by both constructors. -/
theorem matrix_new_spec_witness :
    ((StaticMatrix.new 2 3 ([1, 2, 3, 4] : List Nat) = none
        ↔ ([1, 2, 3, 4] : List Nat).length ≠ 2 * 3)
      ∧ (Mat.width ⟨2, 2, ([1, 2, 3, 4] : List Nat)⟩ = 2
      ∧ Mat.height ⟨2, 2, ([1, 2, 3, 4] : List Nat)⟩ = 2
      ∧ Mat.data ⟨2, 2, ([1, 2, 3, 4] : List Nat)⟩ = [1, 2, 3, 4])) :=
  ⟨(matrix_new_spec 2 3 [1, 2, 3, 4]).1,
    (matrix_new_spec 2 2 [1, 2, 3, 4]).2.2.1 ⟨2, 2, [1, 2, 3, 4]⟩ (by decide)⟩

/-- C7: for in-range `(row, col)` the flipped view's lookup equals the wrapped
grid's lookup at `(height-1-row, width-1-col)`, and applying the flipped
lookup twice (the outer view remaps `(row, col)` to
`(height-row-1, width-col-1)` and hands that to the inner view) returns the
original grid's value at `(row, col)`. -/
theorem flipped_get_value_spec {α : Type} (m : Mat α) (row col : Nat)
    (hr : row < m.height) (hc : col < m.width) :
    FlippedMatrix.get_value m row col
        = m.get_value (m.height - 1 - row) (m.width - 1 - col)
    ∧ FlippedMatrix.get_value m (m.height - row - 1) (m.width - col - 1)
        = m.get_value row col := by
  constructor
  · rw [FlippedMatrix.get_value]
    have h1 : m.height - row - 1 = m.height - 1 - row := by omega
    have h2 : m.width - col - 1 = m.width - 1 - col := by omega
    rw [h1, h2]
  · rw [FlippedMatrix.get_value]
    have h1 : m.height - (m.height - row - 1) - 1 = row := by omega
    have h2 : m.width - (m.width - col - 1) - 1 = col := by omega
    rw [h1, h2]

/-- C7 witness: instantiation on a 3-wide, 2-high grid at `(0, 0)`: the view
reads the far corner `(1, 2)`, and the double flip restores the original
corner value. -/
theorem flipped_get_value_spec_witness :
    (FlippedMatrix.get_value ⟨3, 2, ([1, 2, 3, 4, 5, 6] : List Nat)⟩ 0 0
        = Mat.get_value ⟨3, 2, ([1, 2, 3, 4, 5, 6] : List Nat)⟩ (2 - 1 - 0) (3 - 1 - 0))
    ∧ (FlippedMatrix.get_value ⟨3, 2, ([1, 2, 3, 4, 5, 6] : List Nat)⟩ (2 - 0 - 1) (3 - 0 - 1)
        = Mat.get_value ⟨3, 2, ([1, 2, 3, 4, 5, 6] : List Nat)⟩ 0 0) :=
  flipped_get_value_spec ⟨3, 2, [1, 2, 3, 4, 5, 6]⟩ 0 0 (by decide) (by decide)

/-- C5 counterexample: the crate's `SaturatingAdd` and `SaturatingMul`
implementation tables do not contain the `SubPixels` composite type (here at
channel type `u8` and channel count 3), so the saturating capability set
claimed for `SubPixels` does not exist in the code. -/
theorem subPixels_lacks_saturating_impls :
    CrateTy.subPixels .u8 3 ∉ saturatingAddImplTypes
    ∧ CrateTy.subPixels .u8 3 ∉ saturatingMulImplTypes := by decide

/-- C5 (amended): `SubPixels` supports ordinary channel-wise addition and
scalar multiplication applied independently per channel, but the saturating
capability set (`SaturatingAdd`/`SaturatingMul`) is implemented only for the
primitive integer scalar types, never for `SubPixels`, so the saturating
convolution entry points cannot be used with `SubPixels` elements. -/
theorem subPixels_arith_spec :
    (∀ (α : Type) (addT : α → α → α) (a b : SubPixels α) (i : Nat) (x y : α),
        a.vals[i]? = some x → b.vals[i]? = some y →
        (SubPixels.add addT a b).vals[i]? = some (addT x y))
    ∧ (∀ (α κ β : Type) (mulT : α → κ → β) (a : SubPixels α) (c : κ) (i : Nat) (x : α),
        a.vals[i]? = some x → (SubPixels.mul mulT a c).vals[i]? = some (mulT x c))
    ∧ (∀ (t : CrateTy) (n : Nat), CrateTy.subPixels t n ∉ saturatingAddImplTypes)
    ∧ (∀ (t : CrateTy) (n : Nat), CrateTy.subPixels t n ∉ saturatingMulImplTypes) := by
  refine ⟨?_, ?_, ?_, ?_⟩
  · intro α addT a b i x y hx hy
    exact zipWith_getElem?_some addT a.vals b.vals i x y hx hy
  · intro α κ β mulT a c i x hx
    simp [SubPixels.mul, hx]
  · intro t n h
    simp [saturatingAddImplTypes] at h
  · intro t n h
    simp [saturatingMulImplTypes] at h

/-- C5 amended-theorem witness: channel-wise behaviour checked on
`SubPixels([1,2,3]) + SubPixels([4,5,6])` and `SubPixels([1,2,3]) * 2` at
channel 0, and impl-table absence at `SubPixels<u8, 3>`. -/
theorem subPixels_arith_spec_witness :
    (SubPixels.add (fun a b : Nat => a + b) ⟨[1, 2, 3]⟩ ⟨[4, 5, 6]⟩).vals[0]? = some (1 + 4)
    ∧ (SubPixels.mul (fun (a : Nat) (c : Nat) => a * c) ⟨[1, 2, 3]⟩ 2).vals[0]? = some (1 * 2)
    ∧ CrateTy.subPixels .u8 3 ∉ saturatingAddImplTypes :=
  ⟨subPixels_arith_spec.1 Nat (fun a b => a + b) ⟨[1, 2, 3]⟩ ⟨[4, 5, 6]⟩ 0 1 4
      (by decide) (by decide),
    subPixels_arith_spec.2.1 Nat Nat Nat (fun a c => a * c) ⟨[1, 2, 3]⟩ 2 0 1 (by decide),
    subPixels_arith_spec.2.2.1 .u8 3⟩

/-- C1: for every grid `G` (over an element type whose `zero` is an additive
identity and annihilates under multiplication, and whose `one` is a right
unit of the multiplication; `zero` is also the `Default` value used to
initialise the allocation) and the 3×3 identity-like kernel
`[[0,0,0],[0,1,0],[0,0,0]]`, the allocating convolution returns a grid equal
to `G`. -/
theorem convolve2d_identity_kernel {T : Type} (mul add : T → T → T) (zero one : T)
    (G : Mat T) (hlen : G.data.length = G.width * G.height)
    (hmul_one : ∀ x, mul x one = x)
    (hmul_zero : ∀ x, mul x zero = zero)
    (hadd_zero : ∀ a, add a zero = a)
    (hzero_add : ∀ x, add zero x = x) :
    convolve2d mul add zero G ⟨3, 3, [zero, zero, zero, zero, one, zero, zero, zero, zero]⟩
      = some G := by
  obtain ⟨W, H, data⟩ := G
  simp only at hlen
  have hub0 : ∀ (align : Int) (buf : List T),
      update_buffer mul add data zero align buf = buf :=
    fun align buf => update_buffer_zero_tap mul add zero zero hmul_zero hadd_zero data align buf
  have htaps : conv_taps 3 3
      = [(0, 0), (0, 1), (0, 2), (1, 0), (1, 1), (1, 2), (2, 0), (2, 1), (2, 2)] := rfl
  rw [convolve2d, write_convolution]
  simp only [htaps]
  simp only [conv_loop, FlippedMatrix.get_value, Mat.get_value, sliceGet]
  norm_num
  simp only [hub0]
  have hs : ((3 : Nat) >>> 1) = 1 := rfl
  simp only [hs, Nat.cast_one, sub_self, zero_mul, zero_add]
  have hcenter : update_buffer mul add data one 0 (List.replicate (W * H) zero)
      = data := by
    show [] ++ accumInto add (data.map fun x => mul x one) (List.replicate (W * H) zero)
      = data
    rw [List.nil_append]
    have hmap : data.map (fun x => mul x one) = data := by
      simp only [hmul_one, List.map_id']
    rw [hmap, ← hlen]
    exact accumInto_into_zeros add zero hzero_add data
  rw [hcenter]

/-- C1 witness: the identity law instantiated on the 2×2 integer grid
`[5, 6, 7, 8]`. -/
theorem convolve2d_identity_kernel_witness :
    convolve2d (fun a b : Int => a * b) (fun a b => a + b) 0
      ⟨2, 2, [5, 6, 7, 8]⟩ ⟨3, 3, [0, 0, 0, 0, 1, 0, 0, 0, 0]⟩
      = some ⟨2, 2, [5, 6, 7, 8]⟩ :=
  convolve2d_identity_kernel (fun a b => a * b) (fun a b => a + b) 0 1
    ⟨2, 2, [5, 6, 7, 8]⟩ (by decide) (fun x => Int.mul_one x) (fun x => Int.mul_zero x)
    (fun a => Int.add_zero a) (fun x => Int.zero_add x)

/-- C8: convolving an all-zero image of any size with any kernel (whose data
covers its declared extent) yields an all-zero output grid, for any element
types in which the image zero annihilates under the multiplication and the
output zero is an additive identity. -/
theorem convolve2d_zero_image {T K O : Type} (mul : T → K → O) (add : O → O → O)
    (zT : T) (zO : O) (W H : Nat) (kernel : Mat K)
    (hk : kernel.width * kernel.height ≤ kernel.data.length)
    (hmul : ∀ k, mul zT k = zO)
    (hadd : ∀ a, add a zO = a) :
    convolve2d mul add zO ⟨W, H, List.replicate (W * H) zT⟩ kernel
      = some ⟨W, H, List.replicate (W * H) zO⟩ := by
  rw [convolve2d, write_convolution]
  dsimp only
  rw [conv_loop_fixed mul add (List.replicate (W * H) zT) W kernel _ _
    (fun kv align buf => update_buffer_zero_image mul add zT zO hmul hadd _ kv align buf)
    (conv_taps kernel.height kernel.width)
    (List.replicate (W * H) zO)
    (fun rc hrc => by
      have hbox := mem_conv_taps.mp hrc
      exact flipped_lookup_isSome kernel hk hbox.1 hbox.2)]
  rfl

/-- C8 witness: a 2×2 all-zero integer image convolved with the 2×1 kernel
`[3, 4]`. -/
theorem convolve2d_zero_image_witness :
    convolve2d (fun a b : Int => a * b) (fun a b => a + b) 0
      ⟨2, 2, List.replicate (2 * 2) 0⟩ ⟨2, 1, [3, 4]⟩
      = some ⟨2, 2, List.replicate (2 * 2) 0⟩ :=
  convolve2d_zero_image (fun a b => a * b) (fun a b => a + b) 0 0 2 2 ⟨2, 1, [3, 4]⟩
    (by decide) (fun k => Int.zero_mul k) (fun a => Int.add_zero a)

theorem conv_loop_saturating_eq {T K O : Type} (smul : T → K → O) (sadd : O → O → O)
    (imageData : List T) (imageWidth : Nat) (kernel : Mat K) (ksy ksx : Int) :
    ∀ (taps : List (Nat × Nat)) (buf : List O),
      conv_loop_saturating smul sadd imageData imageWidth kernel ksy ksx taps buf
        = conv_loop smul sadd imageData imageWidth kernel ksy ksx taps buf
  | [], _ => rfl
  | rc :: taps, buf => by
    cases hkv : FlippedMatrix.get_value kernel rc.1 rc.2 with
    | none => simp only [conv_loop, conv_loop_saturating, hkv]
    | some kv =>
      simp only [conv_loop, conv_loop_saturating, hkv]
      rw [show update_buffer_saturating smul sadd imageData kv
            (((rc.1 : Int) - ksy) * (imageWidth : Int) + ((rc.2 : Int) - ksx)) buf
          = update_buffer smul sadd imageData kv
            (((rc.1 : Int) - ksy) * (imageWidth : Int) + ((rc.2 : Int) - ksx)) buf from rfl]
      exact conv_loop_saturating_eq smul sadd imageData imageWidth kernel ksy ksx taps _

/-- Lemma: `write_convolution_saturating` is `write_convolution` with the saturating
operations substituted for the wrapping ones. -/
theorem write_convolution_saturating_eq {T K O : Type} (smul : T → K → O) (sadd : O → O → O)
    (image : Mat T) (kernel : Mat K) (out : List O) :
    write_convolution_saturating smul sadd image kernel out
      = write_convolution smul sadd image kernel out :=
  conv_loop_saturating_eq smul sadd image.data image.width kernel _ _ _ out

theorem conv_loop_isSome_iff {T K O : Type} (mul : T → K → O) (add : O → O → O)
    (imageData : List T) (imageWidth : Nat) (kernel : Mat K) (ksy ksx : Int) :
    ∀ (taps : List (Nat × Nat)) (buf : List O),
      (conv_loop mul add imageData imageWidth kernel ksy ksx taps buf).isSome
        ↔ ∀ rc ∈ taps, (FlippedMatrix.get_value kernel rc.1 rc.2).isSome
  | [], buf => by simp [conv_loop]
  | rc :: taps, buf => by
    cases hkv : FlippedMatrix.get_value kernel rc.1 rc.2 with
    | none =>
      simp only [conv_loop, hkv, Option.isSome_none]
      constructor
      · intro hc; cases hc
      · intro hall
        have := hall rc (List.mem_cons_self _ _)
        rw [hkv] at this; cases this
    | some kv =>
      simp only [conv_loop, hkv]
      rw [conv_loop_isSome_iff mul add imageData imageWidth kernel ksy ksx taps _]
      constructor
      · intro hall rc' hrc'
        rcases List.mem_cons.mp hrc' with h1 | h1
        · subst h1; rw [hkv]; rfl
        · exact hall rc' h1
      · intro hall rc' hrc'
        exact hall rc' (List.mem_cons_of_mem _ hrc')

/-- Lemma: `write_convolution` hits the `.unwrap()` panic (modelled `none`) exactly
when the kernel's `get_value` fails somewhere on the in-range box. -/
theorem write_convolution_none_iff {T K O : Type} (mul : T → K → O) (add : O → O → O)
    (image : Mat T) (kernel : Mat K) (out : List O) :
    write_convolution mul add image kernel out = none
      ↔ ∃ r c, r < kernel.height ∧ c < kernel.width ∧ Mat.get_value kernel r c = none := by
  rw [write_convolution, ← Option.not_isSome_iff_eq_none,
    conv_loop_isSome_iff mul add image.data image.width kernel _ _ _ out]
  constructor
  · intro hno
    push_neg at hno
    obtain ⟨rc, hrc, hnone⟩ := hno
    obtain ⟨hb1, hb2⟩ := mem_conv_taps.mp hrc
    refine ⟨kernel.height - rc.1 - 1, kernel.width - rc.2 - 1, by omega, by omega, ?_⟩
    have heq : FlippedMatrix.get_value kernel rc.1 rc.2 = none :=
      Option.not_isSome_iff_eq_none.mp hnone
    rw [FlippedMatrix.get_value] at heq
    exact heq
  · rintro ⟨r, c, hr, hc, hnone⟩ hall
    have hmem : (kernel.height - r - 1, kernel.width - c - 1) ∈
        conv_taps kernel.height kernel.width :=
      mem_conv_taps.mpr ⟨by omega, by omega⟩
    have := hall _ hmem
    rw [FlippedMatrix.get_value] at this
    have e1 : kernel.height - (kernel.height - r - 1) - 1 = r := by omega
    have e2 : kernel.width - (kernel.width - c - 1) - 1 = c := by omega
    rw [e1, e2, hnone] at this
    cases this

/-- C9: both convolution entry points panic (modelled as `none`) precisely
when the kernel's `get_value` returns `None` for some row in
`[0, kernel height)` and column in `[0, kernel width)`; when every in-range
query returns `Some`, no panic occurs. -/
theorem convolution_panics_iff_kernel_gap {T K O : Type}
    (mul : T → K → O) (add : O → O → O) (smul : T → K → O) (sadd : O → O → O)
    (image : Mat T) (kernel : Mat K) (out out' : List O) :
    (write_convolution mul add image kernel out = none
      ↔ ∃ r c, r < kernel.height ∧ c < kernel.width ∧ Mat.get_value kernel r c = none)
    ∧ (write_convolution_saturating smul sadd image kernel out' = none
      ↔ ∃ r c, r < kernel.height ∧ c < kernel.width ∧ Mat.get_value kernel r c = none) :=
  ⟨write_convolution_none_iff mul add image kernel out, by
    rw [write_convolution_saturating_eq]
    exact write_convolution_none_iff smul sadd image kernel out'⟩

/-- C9 witness: with a kernel whose declared 2×2 extent exceeds its 3-element
data, both entry points return `none`, and the bad in-range query is
exhibited. -/
theorem convolution_panics_iff_kernel_gap_witness :
    (write_convolution (fun a b : Nat => a * b) (fun a b => a + b)
        ⟨2, 2, [1, 2, 3, 4]⟩ ⟨2, 2, [7, 8, 9]⟩ [0, 0, 0, 0] = none
      ↔ ∃ r c, r < 2 ∧ c < 2
          ∧ Mat.get_value ⟨2, 2, ([7, 8, 9] : List Nat)⟩ r c = none)
    ∧ (write_convolution_saturating (fun a b : Nat => a * b) (fun a b => a + b)
        ⟨2, 2, [1, 2, 3, 4]⟩ ⟨2, 2, [7, 8, 9]⟩ [0, 0, 0, 0] = none
      ↔ ∃ r c, r < 2 ∧ c < 2
          ∧ Mat.get_value ⟨2, 2, ([7, 8, 9] : List Nat)⟩ r c = none) :=
  convolution_panics_iff_kernel_gap (fun a b => a * b) (fun a b => a + b)
    (fun a b => a * b) (fun a b => a + b)
    ⟨2, 2, [1, 2, 3, 4]⟩ ⟨2, 2, [7, 8, 9]⟩ [0, 0, 0, 0] [0, 0, 0, 0]

theorem accumInto_zipWith {O : Type} (add : O → O → O)
    (hassoc : ∀ a b c, add (add a b) c = add a (add b c)) :
    ∀ (ns X Y : List O), X.length = Y.length →
      accumInto add ns (List.zipWith add X Y) = List.zipWith add X (accumInto add ns Y)
  | [], _, _, _ => rfl
  | _ :: _, [], _, _ => rfl
  | _ :: _, _ :: _, [], h => by simp at h
  | n :: ns, x :: xs, y :: ys, h => by
    simp only [List.zipWith_cons_cons, accumInto, hassoc]
    rw [accumInto_zipWith add hassoc ns xs ys (by simpa using h)]

theorem update_buffer_zipWith {T K O : Type} (mul : T → K → O) (add : O → O → O)
    (hassoc : ∀ a b c, add (add a b) c = add a (add b c))
    (img : List T) (kv : K) (alignment : Int) (X Y : List O) (h : X.length = Y.length) :
    update_buffer mul add img kv alignment (List.zipWith add X Y)
      = List.zipWith add X (update_buffer mul add img kv alignment Y) := by
  simp only [update_buffer]
  rw [List.take_zipWith, List.drop_zipWith]
  rw [accumInto_zipWith add hassoc _ _ _ (by simp [h])]
  rw [← List.zipWith_append _ _ _ _ _ (by simp [h])]
  rw [List.take_append_drop]

theorem conv_loop_zipWith {T K O : Type} (mul : T → K → O) (add : O → O → O)
    (hassoc : ∀ a b c, add (add a b) c = add a (add b c))
    (imageData : List T) (imageWidth : Nat) (kernel : Mat K) (ksy ksx : Int) :
    ∀ (taps : List (Nat × Nat)) (X Y : List O), X.length = Y.length →
      conv_loop mul add imageData imageWidth kernel ksy ksx taps (List.zipWith add X Y)
        = (conv_loop mul add imageData imageWidth kernel ksy ksx taps Y).map
            (fun Z => List.zipWith add X Z)
  | [], _, _, _ => rfl
  | rc :: taps, X, Y, h => by
    cases hkv : FlippedMatrix.get_value kernel rc.1 rc.2 with
    | none => simp [conv_loop, hkv]
    | some kv =>
      simp only [conv_loop, hkv]
      rw [update_buffer_zipWith mul add hassoc _ _ _ _ _ h]
      exact conv_loop_zipWith mul add hassoc imageData imageWidth kernel ksy ksx taps X _
        (by rw [update_buffer_length]; exact h)

theorem zipWith_add_replicate_right {O : Type} (add : O → O → O) (z : O) :
    ∀ (l : List O), (∀ a ∈ l, add a z = a) →
      List.zipWith add l (List.replicate l.length z) = l
  | [], _ => rfl
  | a :: l, h => by
    simp only [List.length_cons, List.replicate_succ, List.zipWith_cons_cons,
      h a (List.mem_cons_self _ _)]
    rw [zipWith_add_replicate_right add z l fun x hx => h x (List.mem_cons_of_mem _ hx)]

/-- Running `write_convolution` on a pre-filled buffer yields the element-wise
sum of that buffer with the run from an all-`zero` buffer. -/
theorem write_convolution_zipWith {T K O : Type} (mul : T → K → O) (add : O → O → O)
    (zero : O) (image : Mat T) (kernel : Mat K) (buf : List O)
    (hassoc : ∀ a b c, add (add a b) c = add a (add b c))
    (hzero : ∀ a ∈ buf, add a zero = a)
    (hlen : buf.length = image.width * image.height) :
    write_convolution mul add image kernel buf
      = (write_convolution mul add image kernel
          (List.replicate (image.width * image.height) zero)).map
          (fun base => List.zipWith add buf base) := by
  have hb : buf = List.zipWith add buf (List.replicate (image.width * image.height) zero) := by
    rw [← hlen]
    exact (zipWith_add_replicate_right add zero buf hzero).symm
  conv_lhs => rw [hb]
  rw [write_convolution, write_convolution]
  exact conv_loop_zipWith mul add hassoc image.data image.width kernel _ _ _ buf _
    (by simp [hlen])

/-- C10: the caller-supplied-buffer forms accumulate into the output buffer's
existing contents rather than clearing it first — the result on a pre-filled
buffer is the element-wise addition of that buffer with the pure convolution
(the run from an all-`zero` buffer), for both the wrapping and the saturating
form — while the allocating form is by definition the run on a freshly
default-filled buffer. -/
theorem write_convolution_accumulates {T K O U J P : Type}
    (mul : T → K → O) (add : O → O → O) (zero : O)
    (smul : U → J → P) (sadd : P → P → P) (zero' : P)
    (image : Mat T) (kernel : Mat K) (buf : List O)
    (image' : Mat U) (kernel' : Mat J) (buf' : List P)
    (hassoc : ∀ a b c, add (add a b) c = add a (add b c))
    (hzero : ∀ a ∈ buf, add a zero = a)
    (hlen : buf.length = image.width * image.height)
    (hassoc' : ∀ a b c, sadd (sadd a b) c = sadd a (sadd b c))
    (hzero' : ∀ a ∈ buf', sadd a zero' = a)
    (hlen' : buf'.length = image'.width * image'.height) :
    write_convolution mul add image kernel buf
      = (write_convolution mul add image kernel
          (List.replicate (image.width * image.height) zero)).map
          (fun base => List.zipWith add buf base)
    ∧ write_convolution_saturating smul sadd image' kernel' buf'
      = (write_convolution_saturating smul sadd image' kernel'
          (List.replicate (image'.width * image'.height) zero')).map
          (fun base => List.zipWith sadd buf' base)
    ∧ convolve2d mul add zero image kernel
      = (write_convolution mul add image kernel
          (List.replicate (image.width * image.height) zero)).map
          (fun d => ⟨image.width, image.height, d⟩) := by
  refine ⟨write_convolution_zipWith mul add zero image kernel buf hassoc hzero hlen, ?_, rfl⟩
  rw [write_convolution_saturating_eq, write_convolution_saturating_eq]
  exact write_convolution_zipWith smul sadd zero' image' kernel' buf' hassoc' hzero' hlen'

/-- C10 witness: a 2×2 `Nat` image against the pre-filled buffer
`[5, 5, 5, 5]`, and a 2×2 `u8` image with saturating arithmetic against the
same pre-filled buffer. -/
theorem write_convolution_accumulates_witness :
    write_convolution (fun a b : Nat => a * b) (fun a b => a + b)
        ⟨2, 2, [1, 2, 3, 4]⟩ ⟨1, 1, [2]⟩ [5, 5, 5, 5]
      = (write_convolution (fun a b : Nat => a * b) (fun a b => a + b)
          ⟨2, 2, [1, 2, 3, 4]⟩ ⟨1, 1, [2]⟩ (List.replicate (2 * 2) 0)).map
          (fun base => List.zipWith (fun a b => a + b) [5, 5, 5, 5] base)
    ∧ write_convolution_saturating u8SatMul u8SatAdd
        ⟨2, 2, [100, 200, 3, 4]⟩ ⟨1, 1, [2]⟩ [5, 5, 5, 5]
      = (write_convolution_saturating u8SatMul u8SatAdd
          ⟨2, 2, [100, 200, 3, 4]⟩ ⟨1, 1, [2]⟩ (List.replicate (2 * 2) 0)).map
          (fun base => List.zipWith u8SatAdd [5, 5, 5, 5] base)
    ∧ convolve2d (fun a b : Nat => a * b) (fun a b => a + b) 0
        ⟨2, 2, [1, 2, 3, 4]⟩ ⟨1, 1, [2]⟩
      = (write_convolution (fun a b : Nat => a * b) (fun a b => a + b)
          ⟨2, 2, [1, 2, 3, 4]⟩ ⟨1, 1, [2]⟩ (List.replicate (2 * 2) 0)).map
          (fun d => ⟨2, 2, d⟩) :=
  write_convolution_accumulates (fun a b => a * b) (fun a b => a + b) 0
    u8SatMul u8SatAdd 0
    ⟨2, 2, [1, 2, 3, 4]⟩ ⟨1, 1, [2]⟩ [5, 5, 5, 5]
    ⟨2, 2, [100, 200, 3, 4]⟩ ⟨1, 1, [2]⟩ [5, 5, 5, 5]
    (fun a b c => Nat.add_assoc a b c) (by decide) (by decide)
    (fun a b c => by simp only [u8SatAdd]; omega) (by decide) (by decide)

end Convolve2d
